import Mathlib

set_option maxHeartbeats 1000000
set_option maxRecDepth 8192

/-!
Verification of the CHIP-8 virtual machine `yet-another-rchip8` against its
natural-language specification.  The Rust sources (`src/instruction.rs`,
`src/video.rs`, `src/keyboard.rs`, `src/rom.rs`, `src/machine.rs`, `src/main.rs`)
are shallowly embedded below: machine integers (`u8`, `u16`) become `Nat` with
explicit `% 256` / `% 65536` where overflow matters, in-place mutation becomes
functional state passing on the `Machine` structure, and operations that can
panic (slice indexing out of bounds, `Vec::pop().unwrap()` on an empty stack)
return `Option`.
-/

/-- Functional update of a one-argument map, modelling an indexed write `f[k] = v`. -/
def upd (f : Nat → Nat) (k v : Nat) : Nat → Nat :=
  fun a => if a = k then v else f a

/-- Functional update of a two-argument map, modelling `g[p][q] = v`. -/
def upd2 (g : Nat → Nat → Nat) (p q v : Nat) : Nat → Nat → Nat :=
  fun a b => if a = p ∧ b = q then v else g a b

theorem upd_same (f : Nat → Nat) (k v : Nat) : upd f k v k = v := by
  simp [upd]

theorem upd_other (f : Nat → Nat) (k v a : Nat) (h : a ≠ k) : upd f k v a = f a := by
  simp [upd, h]

/-! ## Instruction decoder (`src/instruction.rs`)

`Instruction::new` packs two bytes into a 16-bit opcode; the field accessors
split it by shifting and masking exactly as the Rust source does. -/

/-- Embedding of `Instruction::new(high, low)`: `(high as u16) << 8 | low`. -/
def Instruction.new (high low : Nat) : Nat :=
  (high <<< 8) ||| low

/-- Embedding of `Instruction::kind`: `opcode >> 12 & 0x0f`. -/
def Instruction.kind (op : Nat) : Nat :=
  (op >>> 12) &&& 0xf

/-- Embedding of `Instruction::x`: `opcode >> 8 & 0x0f`. -/
def Instruction.x (op : Nat) : Nat :=
  (op >>> 8) &&& 0xf

/-- Embedding of `Instruction::y`: `opcode >> 4 & 0x0f`. -/
def Instruction.y (op : Nat) : Nat :=
  (op >>> 4) &&& 0xf

/-- Embedding of `Instruction::n`: `opcode & 0x0f`. -/
def Instruction.n (op : Nat) : Nat :=
  op &&& 0xf

/-- Embedding of `Instruction::nn`: `opcode & 0xff`. -/
def Instruction.nn (op : Nat) : Nat :=
  op &&& 0xff

/-- Embedding of `Instruction::nnn`: `opcode & 0xfff`. -/
def Instruction.nnn (op : Nat) : Nat :=
  op &&& 0xfff

/-- Embedding of `Instruction::decode`, the six derived fields as a tuple. -/
def Instruction.decode (op : Nat) : Nat × Nat × Nat × Nat × Nat × Nat :=
  (Instruction.kind op, Instruction.x op, Instruction.y op,
   Instruction.n op, Instruction.nn op, Instruction.nnn op)

theorem Instruction.kind_eq (op : Nat) : Instruction.kind op = op / 4096 % 16 := by
  have h := Nat.and_pow_two_sub_one_eq_mod (op >>> 12) 4
  norm_num at h
  rw [Instruction.kind, h, Nat.shiftRight_eq_div_pow]

theorem Instruction.x_eq (op : Nat) : Instruction.x op = op / 256 % 16 := by
  have h := Nat.and_pow_two_sub_one_eq_mod (op >>> 8) 4
  norm_num at h
  rw [Instruction.x, h, Nat.shiftRight_eq_div_pow]

theorem Instruction.y_eq (op : Nat) : Instruction.y op = op / 16 % 16 := by
  have h := Nat.and_pow_two_sub_one_eq_mod (op >>> 4) 4
  norm_num at h
  rw [Instruction.y, h, Nat.shiftRight_eq_div_pow]

theorem Instruction.n_eq (op : Nat) : Instruction.n op = op % 16 := by
  have h := Nat.and_pow_two_sub_one_eq_mod op 4
  norm_num at h
  rw [Instruction.n, h]

theorem Instruction.nn_eq (op : Nat) : Instruction.nn op = op % 256 := by
  have h := Nat.and_pow_two_sub_one_eq_mod op 8
  norm_num at h
  rw [Instruction.nn, h]

theorem Instruction.nnn_eq (op : Nat) : Instruction.nnn op = op % 4096 := by
  have h := Nat.and_pow_two_sub_one_eq_mod op 12
  norm_num at h
  rw [Instruction.nnn, h]

/-! ## Display buffer (`src/video.rs`)

The 64×32 grid `Vec<Vec<u8>>` indexed `grid[x][y]` is embedded as a function
`Nat → Nat → Nat`; `Video::flip` is the XOR-blit draw with collision flag. -/

/-- Display grid, addressed `grid x y` like the source's `grid[x][y]`. -/
def Grid : Type := Nat → Nat → Nat

/-- Inner column loop of `Video::flip`: for `offX in 0..8`, stop early when
`x + offX` reaches 64 (the source's `break`), otherwise XOR the sprite bit
`(bits >> (7 - offX)) & 1` into the cell `(x + offX, ny)`, recording a
collision in `flag` when a set pixel is erased. -/
def flipRowGo (bits x ny : Nat) (offX : Nat) (g : Grid) (flag : Nat) : Grid × Nat :=
  if offX < 8 then
    if x + offX < 64 then
      if g (x + offX) ny = 1 ∧ (bits >>> (7 - offX)) &&& 1 = 1 then
        flipRowGo bits x ny (offX + 1) (upd2 g (x + offX) ny 0) 1
      else if g (x + offX) ny = 0 ∧ (bits >>> (7 - offX)) &&& 1 = 1 then
        flipRowGo bits x ny (offX + 1) (upd2 g (x + offX) ny 1) flag
      else
        flipRowGo bits x ny (offX + 1) g flag
    else (g, flag)
  else (g, flag)
termination_by 8 - offX

/-- Outer row loop of `Video::flip`: iterate over the (already truncated) sprite
rows, stopping when the row coordinate reaches 32 (the source's `break`). -/
def flipGo (x y : Nat) : List Nat → Nat → Grid → Nat → Grid × Nat
  | [], _, g, flag => (g, flag)
  | bits :: rest, offY, g, flag =>
    if y + offY = 32 then (g, flag)
    else
      flipGo x y rest (offY + 1) (flipRowGo bits x (y + offY) 0 g flag).1
        (flipRowGo bits x (y + offY) 0 g flag).2

/-- Embedding of `Video::flip(x, y, n, data)`: XOR-blit of the first `n` rows of
`data` (the source's `.iter().enumerate().take(n)`) at `(x, y)`, returning the
updated grid and the collision flag. -/
def Video.flip (g : Grid) (x y n : Nat) (data : List Nat) : Grid × Nat :=
  flipGo x y (data.take n) 0 g 0

/-- Value of a grid cell after it is hit by a set sprite bit: 1 becomes 0,
0 becomes 1, any other value is left as the source's two-branch `if` leaves it. -/
def flipVal (v : Nat) : Nat :=
  if v = 1 then 0 else if v = 0 then 1 else v

/-- Column positions written by one row of the blit, starting from column
offset `offX`: offsets `j` with `offX ≤ j < 8`, column `x + j` on screen,
and sprite bit `7 - j` set. -/
def rowHit (bits x offX a : Nat) : Prop :=
  ∃ j, offX ≤ j ∧ j < 8 ∧ x + j < 64 ∧ a = x + j ∧ (bits >>> (7 - j)) &&& 1 = 1

/-- Collision condition for one row of the blit against grid `g`. -/
def rowColl (bits x offX : Nat) (g : Grid) (ny : Nat) : Prop :=
  ∃ j, offX ≤ j ∧ j < 8 ∧ x + j < 64 ∧ (bits >>> (7 - j)) &&& 1 = 1 ∧ g (x + j) ny = 1

/-- Cell positions written by `Video.flip g x y data.length data` when `y < 32`:
row `i` of the sprite lands on grid row `y + i` if that is above the bottom
edge, and its set bits land on the on-screen columns. -/
def spriteHit (x y : Nat) (data : List Nat) (a b : Nat) : Prop :=
  ∃ i, i < data.length ∧ y + i < 32 ∧ b = y + i ∧ rowHit (data.getD i 0) x 0 a

/-! ## Input latch (`src/keyboard.rs`)

Only the 16-entry key-state array matters to the engine; the scancode maps are
host-adapter concerns.  `KeyBoard::first_down_key` is called by
`Machine::run_cycle` but its definition is not among the given sources. -/

/-- Modelled from the spec: `KeyBoard::first_down_key` is missing from the given
sources (only its caller in `machine.rs` is present); per the spec (§4.4) the
Input Latch exposes `first_down() -> Option<key>` over the sixteen logical keys
`0x0..0xF`, returning the first latched-down key. -/
def first_down_key (keys : Nat → Bool) : Option Nat :=
  (List.range 16).find? fun k => keys k

/-! ## Machine (`src/machine.rs`)

The execution-engine state.  `stack` is a `List` whose head is the top (the end
of the source's `Vec`); `keys` is the input latch; `grid` is the display
buffer.  SDL handles carry no engine state and are dropped. -/

structure Machine where
  memory : Nat → Nat
  registers : Nat → Nat
  pc : Nat
  i : Nat
  stack : List Nat
  delay_timer : Nat
  sound_timer : Nat
  keys : Nat → Bool
  grid : Grid

/-- Embedding of `Machine::new()`: zeroed memory and registers, `pc = 0x200`,
empty stack, cleared display, all keys up. -/
def Machine.new : Machine :=
  { memory := fun _ => 0
    registers := fun _ => 0
    pc := 0x200
    i := 0
    stack := []
    delay_timer := 0
    sound_timer := 0
    keys := fun _ => false
    grid := fun _ _ => 0 }

/-- Sequential byte writes starting at `start`, modelling
`memory[start..end].clone_from_slice(rom)`. -/
def writeRange (mem : Nat → Nat) (start : Nat) : List Nat → (Nat → Nat)
  | [] => mem
  | b :: rest => writeRange (upd mem start b) (start + 1) rest

/-- Embedding of `Machine::load_rom`: reject an image larger than
`MEMORY_SIZE - RESERVED_MEMORY_SIZE = 4096 - 512` bytes, otherwise copy it into
memory starting at `pc`.  The `Bool` is `true` on success (`Ok(())`), and on
failure the machine is returned untouched (the source errors out before any
write). -/
def Machine.load_rom (m : Machine) (rom : List Nat) : Machine × Bool :=
  if rom.length > 4096 - 512 then (m, false)
  else ({ m with memory := writeRange m.memory m.pc rom }, true)

/-- Embedding of `Machine::add` (opcode 8XY4): wrapping 8-bit add of `Vy` into
`Vx`; VF is written with the carry first, then `Vx` with the sum, exactly in
the source's order (so for `x = 0xF` the sum overwrites the carry). -/
def Machine.add (m : Machine) (x y : Nat) : Machine :=
  let val := (m.registers x + m.registers y) % 256
  let flag := if 255 < m.registers x + m.registers y then 1 else 0
  { m with registers := upd (upd m.registers 0xf flag) x val }

/-- Embedding of `Machine::sub` (opcode 8XY5): wrapping `Vx - Vy`; VF is the
negated borrow, written before the result. -/
def Machine.sub (m : Machine) (x y : Nat) : Machine :=
  let val := if m.registers y ≤ m.registers x
    then m.registers x - m.registers y
    else m.registers x + 256 - m.registers y
  let flag := if m.registers y ≤ m.registers x then 1 else 0
  { m with registers := upd (upd m.registers 0xf flag) x val }

/-- Embedding of `Machine::subb` (opcode 8XY7): wrapping `Vy - Vx`; VF is the
negated borrow, written before the result. -/
def Machine.subb (m : Machine) (x y : Nat) : Machine :=
  let val := if m.registers x ≤ m.registers y
    then m.registers y - m.registers x
    else m.registers y + 256 - m.registers x
  let flag := if m.registers x ≤ m.registers y then 1 else 0
  { m with registers := upd (upd m.registers 0xf flag) x val }

/-- New engine's register dump (machine.rs, opcode FX55):
`memory[i..=i+x].copy_from_slice(&registers[..=x])`. -/
def regDumpNew (mem regs : Nat → Nat) (i x : Nat) : Nat → Nat :=
  fun a => if i ≤ a ∧ a ≤ i + x then regs (a - i) else mem a

/-- New engine's register load (machine.rs, opcode FX65):
`registers[..=x].copy_from_slice(&memory[i..=i+x])`. -/
def regLoadNew (mem regs : Nat → Nat) (i x : Nat) : Nat → Nat :=
  fun k => if k ≤ x then mem (i + k) else regs k

/-- Old engine's register dump (main.rs, opcode FX55):
`for n in 0..=0xf { memory[i + n] = registers[n] }` — all sixteen registers,
ignoring `x`. -/
def regDumpOld (mem regs : Nat → Nat) (i : Nat) : Nat → Nat :=
  (List.range 16).foldl (fun mm k => upd mm (i + k) (regs k)) mem

/-- Old engine's register load (main.rs, opcode FX65):
`for n in 0..=0xf { registers[n] = memory[i + n] }` — all sixteen registers,
ignoring `x`. -/
def regLoadOld (mem regs : Nat → Nat) (i : Nat) : Nat → Nat :=
  (List.range 16).foldl (fun rr k => upd rr k (mem (i + k))) regs

/-- Dispatch half of `Machine::run_cycle` (machine.rs): execute one decoded
instruction on the already-fetched state `m1` (whose `pc` has been advanced by
2).  `op` is the full opcode, `kind`, `x`, `y`, `n`, `nn`, `nnn` its decoded
fields, and `r` the byte drawn from the RNG for opcode CXNN.  The result is
`none` exactly where the Rust panics: popping an empty stack (00EE), slicing
memory out of range (DXYN, FX33, FX55, FX65), or indexing the 16-entry key
array with `Vx ≥ 16` (EX9E/EXA1).  `I += Vx` (FX1E) uses u16 wrapping
arithmetic. -/
def Machine.exec (m1 : Machine) (r op kind x y n nn nnn : Nat) : Option Machine :=
  if kind = 0 then
    if op = 0x00e0 then some { m1 with grid := fun _ _ => 0 }
    else if op = 0x00ee then
      match m1.stack with
      | [] => none
      | p :: rest => some { m1 with pc := p, stack := rest }
    else some m1
  else if kind = 1 then some { m1 with pc := nnn }
  else if kind = 2 then some { m1 with stack := m1.pc :: m1.stack, pc := nnn }
  else if kind = 3 then
    some (if m1.registers x = nn then { m1 with pc := m1.pc + 2 } else m1)
  else if kind = 4 then
    some (if m1.registers x ≠ nn then { m1 with pc := m1.pc + 2 } else m1)
  else if kind = 5 then
    some (if m1.registers x = m1.registers y then { m1 with pc := m1.pc + 2 } else m1)
  else if kind = 6 then some { m1 with registers := upd m1.registers x nn }
  else if kind = 7 then
    some { m1 with registers := upd m1.registers x ((m1.registers x + nn) % 256) }
  else if kind = 8 then
    if n = 0 then some { m1 with registers := upd m1.registers x (m1.registers y) }
    else if n = 1 then
      some { m1 with registers := upd m1.registers x (m1.registers x ||| m1.registers y) }
    else if n = 2 then
      some { m1 with registers := upd m1.registers x (m1.registers x &&& m1.registers y) }
    else if n = 3 then
      some { m1 with registers := upd m1.registers x (m1.registers x ^^^ m1.registers y) }
    else if n = 4 then some (m1.add x y)
    else if n = 5 then some (m1.sub x y)
    else if n = 7 then some (m1.subb x y)
    else if n = 6 then
      let r1 := upd m1.registers 0xf (m1.registers x &&& 1)
      some { m1 with registers := upd r1 x (r1 x >>> 1) }
    else if n = 0xe then
      let r1 := upd m1.registers 0xf (m1.registers x >>> 7)
      some { m1 with registers := upd r1 x ((r1 x <<< 1) % 256) }
    else some m1
  else if kind = 9 then
    some (if m1.registers x ≠ m1.registers y then { m1 with pc := m1.pc + 2 } else m1)
  else if kind = 0xa then some { m1 with i := nnn }
  else if kind = 0xb then some { m1 with pc := nnn + m1.registers 0 }
  else if kind = 0xc then
    some { m1 with registers := upd m1.registers x ((r % 256) &&& nn) }
  else if kind = 0xd then
    if m1.i + n ≤ 4096 then
      let dx := m1.registers x % 64
      let dy := m1.registers y % 32
      let data := (List.range n).map fun k => m1.memory (m1.i + k)
      let res := Video.flip m1.grid dx dy n data
      some { m1 with grid := res.1, registers := upd m1.registers 0xf res.2 }
    else none
  else if kind = 0xe then
    if m1.registers x < 16 then
      let pressed := m1.keys (m1.registers x)
      if pressed = true ∧ nn = 0x9e then some { m1 with pc := m1.pc + 2 }
      else if pressed = false ∧ nn = 0xa1 then some { m1 with pc := m1.pc + 2 }
      else some m1
    else none
  else if kind = 0xf then
    if nn = 0x07 then some { m1 with registers := upd m1.registers x m1.delay_timer }
    else if nn = 0x15 then some { m1 with delay_timer := m1.registers x }
    else if nn = 0x18 then some { m1 with sound_timer := m1.registers x }
    else if nn = 0x1e then some { m1 with i := (m1.i + m1.registers x) % 65536 }
    else if nn = 0x0a then
      match first_down_key m1.keys with
      | some k =>
        some { m1 with registers := upd m1.registers x k,
                       keys := fun j => if j = k then false else m1.keys j }
      | none => some { m1 with pc := m1.pc - 2 }
    else if nn = 0x29 then some { m1 with i := 0x50 + 5 * m1.registers x }
    else if nn = 0x33 then
      if m1.i + 2 < 4096 then
        let v := m1.registers x
        let mem1 := upd m1.memory (m1.i + 2) (v % 10)
        let mem2 := upd mem1 (m1.i + 1) (v / 10 % 10)
        some { m1 with memory := upd mem2 m1.i (v / 10 / 10) }
      else none
    else if nn = 0x55 then
      if m1.i + x < 4096 then
        some { m1 with memory := regDumpNew m1.memory m1.registers m1.i x }
      else none
    else if nn = 0x65 then
      if m1.i + x < 4096 then
        some { m1 with registers := regLoadNew m1.memory m1.registers m1.i x }
      else none
    else some m1
  else some m1

/-- Fetch half of `Machine::run_cycle` (machine.rs): read the two opcode bytes
at `pc` (failing, like the Rust indexing, when `pc + 1` is past the 4096-byte
memory), advance `pc` by 2 before dispatch, decode, and execute. -/
def Machine.run_cycle (m : Machine) (r : Nat) : Option Machine :=
  if m.pc + 1 < 4096 then
    let op := Instruction.new (m.memory m.pc) (m.memory (m.pc + 1))
    Machine.exec { m with pc := m.pc + 2 } r op (Instruction.kind op) (Instruction.x op)
      (Instruction.y op) (Instruction.n op) (Instruction.nn op) (Instruction.nnn op)
  else none

/-- Iterated cycles: run `k` cycles, feeding cycle `j` the random byte `rs j`. -/
def runN (rs : Nat → Nat) : Nat → Machine → Option Machine
  | 0, m => some m
  | k + 1, m => (runN rs k m).bind fun m2 => m2.run_cycle (rs k)

/-- States on which one cycle completes: the fetch stays in memory, a return
has a return address, and the memory/key accesses of DXYN, EX--, FX33, FX55
and FX65 stay in bounds. -/
def cycleSafe (m : Machine) : Prop :=
  m.pc + 1 < 4096 ∧
  (let op := Instruction.new (m.memory m.pc) (m.memory (m.pc + 1))
   (op = 0x00ee → m.stack ≠ []) ∧
   (Instruction.kind op = 0xd → m.i + Instruction.n op ≤ 4096) ∧
   (Instruction.kind op = 0xe → m.registers (Instruction.x op) < 16) ∧
   (Instruction.kind op = 0xf → Instruction.nn op = 0x33 → m.i + 2 < 4096) ∧
   (Instruction.kind op = 0xf → (Instruction.nn op = 0x55 ∨ Instruction.nn op = 0x65) →
     m.i + Instruction.x op < 4096))

/-! ## Small arithmetic helpers for shifts -/

theorem shiftRight_one_eq (v : Nat) : v >>> 1 = v / 2 := by
  rw [Nat.shiftRight_eq_div_pow]

theorem shiftRight_seven_eq (v : Nat) : v >>> 7 = v / 128 := by
  rw [Nat.shiftRight_eq_div_pow]

theorem shiftLeft_one_eq (v : Nat) : v <<< 1 = v * 2 := by
  rw [Nat.shiftLeft_eq]

/-! ## C8: the decoder is a total pure function on all 65536 opcodes -/

/-- C8: for every 16-bit opcode value, decoding is total and pure and yields
kind = top 4 bits, x = bits 11..8, y = bits 7..4, n = low 4 bits, nn = low
8 bits, nnn = low 12 bits (`Instruction.decode` is a Lean function, hence
deterministic and side-effect free). -/
theorem decode_fields (op : Nat) (h : op < 65536) :
    Instruction.decode op =
      (op / 4096, op / 256 % 16, op / 16 % 16, op % 16, op % 256, op % 4096) := by
  have hk : op / 4096 % 16 = op / 4096 := Nat.mod_eq_of_lt (by omega)
  simp [Instruction.decode, Instruction.kind_eq, Instruction.x_eq, Instruction.y_eq,
    Instruction.n_eq, Instruction.nn_eq, Instruction.nnn_eq, hk]

/-- Witness for C8 at the concrete opcode 0xABCD. -/
theorem decode_fields_witness :
    (0xabcd : Nat) < 65536 ∧
      Instruction.decode 0xabcd = (0xa, 0xb, 0xc, 0xd, 0xcd, 0xbcd) :=
  ⟨by norm_num, (decode_fields 0xabcd (by norm_num)).trans (by norm_num)⟩

/-! ## C1: the 8XY4 add -/

/-- Machine in which the add 8FE4 shows the VF aliasing: V15 = 200, V14 = 100. -/
def addVFState : Machine :=
  { Machine.new with registers := fun k => if k = 15 then 200 else if k = 14 then 100 else 0 }

/-- C1 counterexample: with x = 15 the stored sum overwrites the carry flag, so
the addition 200 + 100 overflows 8 bits yet VF ends at 44, not 1. -/
theorem add_vf_counterexample :
    255 < addVFState.registers 15 + addVFState.registers 14 ∧
      (addVFState.add 15 14).registers 15 = 44 ∧ (44 : Nat) ≠ 1 := by
  refine ⟨by decide, ?_, by decide⟩
  decide

/-- C1 (amended): for register indices x, y with x ≠ 0xF and 8-bit register
values, 8XY4 stores `(Vx + Vy) mod 256` into Vx and sets VF to 1 exactly when
the 8-bit addition overflowed; for x = 0xF the result write overwrites the
flag (see the counterexample).  The stored-sum clause holds for every x. -/
theorem add_amended (m : Machine) (x y : Nat) (hx : x < 16) (hy : y < 16)
    (ha : m.registers x < 256) (hb : m.registers y < 256) :
    (m.add x y).registers x = (m.registers x + m.registers y) % 256 ∧
    (x ≠ 15 → (m.add x y).registers 15 =
      if 255 < m.registers x + m.registers y then 1 else 0) := by
  constructor
  · simp [Machine.add, upd]
  · intro hne
    simp [Machine.add, upd, Ne.symm hne]

/-- Witness for C1 at x = 1, y = 2 on the fresh machine. -/
theorem add_amended_witness :
    (1 : Nat) < 16 ∧ (2 : Nat) < 16 ∧
      (Machine.new.add 1 2).registers 1 = 0 ∧
      ((1 : Nat) ≠ 15 → (Machine.new.add 1 2).registers 15 =
        if 255 < Machine.new.registers 1 + Machine.new.registers 2 then 1 else 0) :=
  ⟨by decide, by decide,
    (add_amended Machine.new 1 2 (by decide) (by decide) (by decide) (by decide)).1,
    (add_amended Machine.new 1 2 (by decide) (by decide) (by decide) (by decide)).2⟩

/-! ## C5: ROM size check -/

/-- C5: loading succeeds exactly when the image is at most 4096 − 512 = 3584
bytes, and a failed load leaves the machine (in particular its memory)
untouched. -/
theorem load_rom_size (m : Machine) (rom : List Nat) :
    ((m.load_rom rom).2 = true ↔ rom.length ≤ 3584) ∧
    ((m.load_rom rom).2 = false → (m.load_rom rom).1 = m) := by
  unfold Machine.load_rom
  by_cases h : rom.length > 4096 - 512 <;> simp [h] <;> omega

/-- Witness for C5: an image of exactly 3584 bytes loads, one of 3585 bytes is
rejected with the machine unchanged. -/
theorem load_rom_size_witness :
    (Machine.new.load_rom (List.replicate 3584 0)).2 = true ∧
      (Machine.new.load_rom (List.replicate 3585 0)).1 = Machine.new :=
  ⟨(load_rom_size Machine.new (List.replicate 3584 0)).1.mpr
      (by rw [List.length_replicate]),
    (load_rom_size Machine.new (List.replicate 3585 0)).2
      (by simp only [Machine.load_rom, List.length_replicate]
          rw [if_pos (by norm_num)])⟩

/-! ## C10: register dump/load in the old (main.rs) and new (machine.rs) engines -/

/-- C10 counterexample: with x = 0, i = 0 and V1 = 1 on zeroed memory, the old
engine writes byte 1 at address 1 while the new engine leaves it 0 — the two
engines do not copy the same set of registers for every x. -/
theorem dump_engines_differ :
    regDumpOld (fun _ => 0) (fun k => k) 0 1 = 1 ∧
      regDumpNew (fun _ => 0) (fun k => k) 0 0 1 = 0 := by
  constructor
  · decide
  · decide

/-- C10 (amended): the old engine always copies all sixteen registers
regardless of x, so the two engines' FX55/FX65 agree exactly in the x = 15
instance, on every machine state. -/
theorem foldl_upd_dump (regs : Nat → Nat) (i : Nat) (L : List Nat) :
    ∀ (mm : Nat → Nat) (a : Nat),
      (L.foldl (fun f k => upd f (i + k) (regs k)) mm) a =
        if ∃ k, k ∈ L ∧ a = i + k then regs (a - i) else mm a := by
  induction L with
  | nil => intro mm a; simp
  | cons c rest ih =>
    intro mm a
    rw [List.foldl_cons, ih]
    by_cases h : ∃ k, k ∈ rest ∧ a = i + k
    · obtain ⟨k, hk, rfl⟩ := h
      rw [if_pos ⟨k, hk, rfl⟩, if_pos ⟨k, List.mem_cons_of_mem c hk, rfl⟩]
    · rw [if_neg h]
      simp only [upd]
      by_cases ha : a = i + c
      · rw [if_pos ha, if_pos ⟨c, List.mem_cons_self c rest, ha⟩]
        subst ha
        congr 1
        omega
      · rw [if_neg ha, if_neg ?_]
        rintro ⟨k, hk, rfl⟩
        rcases List.mem_cons.mp hk with rfl | hk2
        · exact ha rfl
        · exact h ⟨k, hk2, rfl⟩

theorem foldl_upd_load (mem : Nat → Nat) (i : Nat) (L : List Nat) :
    ∀ (rr : Nat → Nat) (a : Nat),
      (L.foldl (fun f k => upd f k (mem (i + k))) rr) a =
        if a ∈ L then mem (i + a) else rr a := by
  induction L with
  | nil => intro rr a; simp
  | cons c rest ih =>
    intro rr a
    rw [List.foldl_cons, ih]
    by_cases h : a ∈ rest
    · rw [if_pos h, if_pos (List.mem_cons_of_mem c h)]
    · rw [if_neg h]
      simp only [upd]
      by_cases ha : a = c
      · rw [if_pos ha, if_pos (ha ▸ List.mem_cons_self c rest)]
        rw [ha]
      · rw [if_neg ha, if_neg ?_]
        intro hk
        rcases List.mem_cons.mp hk with rfl | hk2
        · exact ha rfl
        · exact h hk2

theorem regDumpOld_eq (mem regs : Nat → Nat) (i a : Nat) :
    regDumpOld mem regs i a = if i ≤ a ∧ a ≤ i + 15 then regs (a - i) else mem a := by
  rw [regDumpOld, foldl_upd_dump]
  by_cases h : i ≤ a ∧ a ≤ i + 15
  · rw [if_pos ?_, if_pos h]
    exact ⟨a - i, List.mem_range.mpr (by omega), by omega⟩
  · rw [if_neg ?_, if_neg h]
    rintro ⟨k, hk, rfl⟩
    have := List.mem_range.mp hk
    omega

theorem regLoadOld_eq (mem regs : Nat → Nat) (i k : Nat) :
    regLoadOld mem regs i k = if k ≤ 15 then mem (i + k) else regs k := by
  rw [regLoadOld, foldl_upd_load]
  by_cases h : k ≤ 15
  · rw [if_pos (List.mem_range.mpr (by omega)), if_pos h]
  · rw [if_neg ?_, if_neg h]
    intro hk
    have := List.mem_range.mp hk
    omega

/-- C10 (amended): the old engine always copies all sixteen registers
regardless of x, so the two engines' FX55/FX65 agree exactly in the x = 15
instance, on every machine state. -/
theorem dump_load_agree_at_15 (mem regs : Nat → Nat) (i : Nat) :
    (∀ a, regDumpOld mem regs i a = regDumpNew mem regs i 15 a) ∧
    (∀ k, regLoadOld mem regs i k = regLoadNew mem regs i 15 k) := by
  constructor
  · intro a
    rw [regDumpOld_eq]
    rfl
  · intro k
    rw [regLoadOld_eq]
    rfl

/-! ## C2: the 8XY6 / 8XYE shifts -/

/-- Machine about to execute 8F0E (shift-left with x = 15) with VF = 0x80. -/
def shiftVFState : Machine :=
  { Machine.new with
    memory := fun a => if a = 0x200 then 0x8f else if a = 0x201 then 0x0e else 0
    registers := fun k => if k = 15 then 0x80 else 0 }

/-- C2 counterexample: shift-left with x = 15 and Vx = 0x80.  The claim demands
VF = 1 (the shifted-out MSB) and Vx = 0; the code first writes the MSB into VF
and then shifts VF itself, leaving VF = 2. -/
theorem shift_vf_counterexample :
    shiftVFState.registers 15 = 128 ∧
      ((shiftVFState.run_cycle 0).map fun mm => mm.registers 15) = some 2 := by
  constructor
  · decide
  · decide

/-- C2 (amended): for x ≠ 0xF, shift-right stores `Vx >> 1` and puts the
original LSB into VF, and shift-left stores `(Vx << 1) mod 256` and puts the
original MSB into VF; for x = 0xF the second write shifts the just-written
flag (see the counterexample). -/
theorem shift_amended (m : Machine) (r x y : Nat)
    (hpc : m.pc + 1 < 4096) (hx : x < 16) (hy : y < 16) (hx15 : x ≠ 15)
    (hv : m.registers x < 256) :
    (Instruction.new (m.memory m.pc) (m.memory (m.pc + 1)) = 0x8006 + 256 * x + 16 * y →
      ((m.run_cycle r).map fun mm => (mm.registers 15, mm.registers x)) =
        some (m.registers x % 2, m.registers x / 2)) ∧
    (Instruction.new (m.memory m.pc) (m.memory (m.pc + 1)) = 0x800e + 256 * x + 16 * y →
      ((m.run_cycle r).map fun mm => (mm.registers 15, mm.registers x)) =
        some (m.registers x / 128, m.registers x * 2 % 256)) := by
  constructor
  · intro hop
    have hk : Instruction.kind (Instruction.new (m.memory m.pc) (m.memory (m.pc + 1))) = 8 := by
      rw [hop, Instruction.kind_eq]; omega
    have hxf : Instruction.x (Instruction.new (m.memory m.pc) (m.memory (m.pc + 1))) = x := by
      rw [hop, Instruction.x_eq]; omega
    have hnf : Instruction.n (Instruction.new (m.memory m.pc) (m.memory (m.pc + 1))) = 6 := by
      rw [hop, Instruction.n_eq]; omega
    simp [Machine.run_cycle, Machine.exec, hpc, hk, hxf, hnf, upd, hx15, Ne.symm hx15,
      shiftRight_one_eq, Nat.and_one_is_mod]
  · intro hop
    have hk : Instruction.kind (Instruction.new (m.memory m.pc) (m.memory (m.pc + 1))) = 8 := by
      rw [hop, Instruction.kind_eq]; omega
    have hxf : Instruction.x (Instruction.new (m.memory m.pc) (m.memory (m.pc + 1))) = x := by
      rw [hop, Instruction.x_eq]; omega
    have hnf : Instruction.n (Instruction.new (m.memory m.pc) (m.memory (m.pc + 1))) = 14 := by
      rw [hop, Instruction.n_eq]; omega
    simp [Machine.run_cycle, Machine.exec, hpc, hk, hxf, hnf, upd, hx15, Ne.symm hx15,
      shiftRight_seven_eq, shiftLeft_one_eq]

/-- Machine about to execute 8306 / witness state for C2: V3 = 3. -/
def shiftWitState : Machine :=
  { Machine.new with
    memory := fun a => if a = 0x200 then 0x83 else if a = 0x201 then 0x06 else 0
    registers := fun k => if k = 3 then 3 else 0 }

/-- Witness for C2: shift-right 8306 with V3 = 3 gives V3 = 1 and VF = 1. -/
theorem shift_amended_witness :
    ((shiftWitState.run_cycle 0).map fun mm => (mm.registers 15, mm.registers 3)) =
      some (1, 1) :=
  (shift_amended shiftWitState 0 3 0 (by decide) (by decide) (by decide) (by decide)
    (by decide)).1 (by decide)

/-! ## C6: the FX0A wait-for-key -/

/-- Machine about to execute FF0A (wait-for-key with x = 15) with key 5 down. -/
def waitKeyVFState : Machine :=
  { Machine.new with
    memory := fun a => if a = 0x200 then 0xff else if a = 0x201 then 0x0a else 0
    keys := fun j => j == 5 }

/-- C6 counterexample: wait-for-key with x = 15 writes the latched key index
into Vx = VF, so VF changes from 0 to 5 — it is not unaffected for every x. -/
theorem wait_key_vf_counterexample :
    waitKeyVFState.registers 15 = 0 ∧
      ((waitKeyVFState.run_cycle 0).map fun mm => mm.registers 15) = some 5 := by
  constructor
  · decide
  · decide

/-- C6 (amended): executing FX0A with no key latched returns the machine
unchanged (PC advanced by 2 at fetch and rewound by 2); with a key latched its
index goes into Vx, that key's latch is cleared and PC advances once, and for
x ≠ 0xF the flag register VF is unaffected (for x = 0xF the key index lands in
VF itself, see the counterexample). -/
theorem wait_key_amended (m : Machine) (r x k : Nat)
    (hpc : m.pc + 1 < 4096) (hx : x < 16)
    (hop : Instruction.new (m.memory m.pc) (m.memory (m.pc + 1)) = 0xf00a + 256 * x) :
    (first_down_key m.keys = none → m.run_cycle r = some m) ∧
    (first_down_key m.keys = some k → x ≠ 15 →
      ((m.run_cycle r).map fun mm => (mm.pc, mm.registers x, mm.registers 15, mm.keys k)) =
        some (m.pc + 2, k, m.registers 15, false)) := by
  have hk : Instruction.kind (Instruction.new (m.memory m.pc) (m.memory (m.pc + 1))) = 15 := by
    rw [hop, Instruction.kind_eq]; omega
  have hxf : Instruction.x (Instruction.new (m.memory m.pc) (m.memory (m.pc + 1))) = x := by
    rw [hop, Instruction.x_eq]; omega
  have hnn : Instruction.nn (Instruction.new (m.memory m.pc) (m.memory (m.pc + 1))) = 0x0a := by
    rw [hop, Instruction.nn_eq]; omega
  constructor
  · intro hnone
    simp [Machine.run_cycle, Machine.exec, hpc, hk, hxf, hnn, hnone]
  · intro hsome hx15
    simp [Machine.run_cycle, Machine.exec, hpc, hk, hxf, hnn, hsome, upd, hx15, Ne.symm hx15]

/-- Machine about to execute F30A with no key latched. -/
def waitNoKeyState : Machine :=
  { Machine.new with
    memory := fun a => if a = 0x200 then 0xf3 else if a = 0x201 then 0x0a else 0 }

/-- Machine about to execute F30A with key 5 down. -/
def waitKeyWitState : Machine :=
  { waitNoKeyState with keys := fun j => j == 5 }

/-- Witness for C6: with no key latched F30A re-executes (state unchanged);
with key 5 latched it stores 5 into V3, clears the latch and advances PC. -/
theorem wait_key_amended_witness :
    waitNoKeyState.run_cycle 0 = some waitNoKeyState ∧
      ((waitKeyWitState.run_cycle 0).map fun mm =>
        (mm.pc, mm.registers 3, mm.registers 15, mm.keys 5)) = some (0x202, 5, 0, false) :=
  ⟨(wait_key_amended waitNoKeyState 0 3 0 (by decide) (by decide) (by decide)).1 (by decide),
    (wait_key_amended waitKeyWitState 0 3 5 (by decide) (by decide) (by decide)).2
      (by decide) (by decide)⟩

/-! ## C3: fatal conditions of one cycle -/

/-- Machine about to execute D002 (draw two sprite rows) with I = 4095, so the
sprite slice `memory[4095..4097]` runs past the 4096-byte memory. -/
def drawOOBState : Machine :=
  { Machine.new with
    memory := fun a => if a = 0x200 then 0xd0 else if a = 0x201 then 0x02 else 0
    i := 4095 }

/-- C3 counterexample: a cycle can fail on an opcode other than 00EE — the
draw D002 with I = 4095 reads the sprite past the end of memory and the
cycle aborts even though the stack is untouched. -/
theorem only_fatal_counterexample :
    Instruction.new (drawOOBState.memory drawOOBState.pc)
        (drawOOBState.memory (drawOOBState.pc + 1)) ≠ 0x00ee ∧
      drawOOBState.run_cycle 0 = none := by
  constructor
  · decide
  · rfl

/-- C3 (amended): 00EE with an empty call stack is fatal, but it is not the
only fatal condition: a cycle completes exactly when the fetch stays inside
memory, a return has a return address, and the memory/key accesses of DXYN,
EX9E/EXA1, FX33, FX55 and FX65 stay in bounds (`cycleSafe`); every opcode and
state satisfying those bounds completes, unrecognized patterns as no-ops. -/
theorem exec_isSome_k0 (m1 : Machine) (r op x y n nn nnn : Nat)
    (hret : op = 0x00ee → m1.stack ≠ []) :
    (Machine.exec m1 r op 0 x y n nn nnn).isSome = true := by
  by_cases h1 : op = 0x00e0
  · simp [Machine.exec, h1]
  by_cases h2 : op = 0x00ee
  · rcases hstack : m1.stack with _ | ⟨p, rest⟩
    · exact absurd hstack (hret h2)
    · simp [Machine.exec, h1, h2, hstack]
  · simp [Machine.exec, h1, h2]

theorem exec_isSome_k8 (m1 : Machine) (r op x y n nn nnn : Nat) :
    (Machine.exec m1 r op 8 x y n nn nnn).isSome = true := by
  simp [Machine.exec]
  split_ifs <;> rfl

theorem exec_isSome_k13 (m1 : Machine) (r op x y n nn nnn : Nat)
    (hb : m1.i + n ≤ 4096) :
    (Machine.exec m1 r op 13 x y n nn nnn).isSome = true := by
  simp [Machine.exec, hb]

theorem exec_isSome_k14 (m1 : Machine) (r op x y n nn nnn : Nat)
    (hb : m1.registers x < 16) :
    (Machine.exec m1 r op 14 x y n nn nnn).isSome = true := by
  simp [Machine.exec, hb]
  split_ifs <;> rfl

theorem exec_isSome_k15 (m1 : Machine) (r op x y n nn nnn : Nat)
    (hbcd : nn = 0x33 → m1.i + 2 < 4096)
    (hdump : nn = 0x55 ∨ nn = 0x65 → m1.i + x < 4096) :
    (Machine.exec m1 r op 15 x y n nn nnn).isSome = true := by
  by_cases h7 : nn = 0x07
  · simp [Machine.exec, h7]
  by_cases h15 : nn = 0x15
  · simp [Machine.exec, h7, h15]
  by_cases h18 : nn = 0x18
  · simp [Machine.exec, h7, h15, h18]
  by_cases h1e : nn = 0x1e
  · simp [Machine.exec, h7, h15, h18, h1e]
  by_cases h0a : nn = 0x0a
  · cases hf : first_down_key m1.keys <;>
      simp [Machine.exec, h7, h15, h18, h1e, h0a, hf]
  by_cases h29 : nn = 0x29
  · simp [Machine.exec, h7, h15, h18, h1e, h0a, h29]
  by_cases h33 : nn = 0x33
  · simp [Machine.exec, h7, h15, h18, h1e, h0a, h29, h33, hbcd h33]
  by_cases h55 : nn = 0x55
  · simp [Machine.exec, h7, h15, h18, h1e, h0a, h29, h33, h55, hdump (Or.inl h55)]
  by_cases h65 : nn = 0x65
  · simp [Machine.exec, h7, h15, h18, h1e, h0a, h29, h33, h55, h65, hdump (Or.inr h65)]
  · simp [Machine.exec, h7, h15, h18, h1e, h0a, h29, h33, h55, h65]

theorem run_cycle_none_ret (m : Machine) (r : Nat) (hpc : m.pc + 1 < 4096)
    (hop : Instruction.new (m.memory m.pc) (m.memory (m.pc + 1)) = 0x00ee)
    (hst : m.stack = []) : m.run_cycle r = none := by
  simp [Machine.run_cycle, Machine.exec, hpc, hop, hst, Instruction.kind_eq]

theorem run_cycle_none_draw (m : Machine) (r : Nat) (hpc : m.pc + 1 < 4096)
    (hk : Instruction.kind (Instruction.new (m.memory m.pc) (m.memory (m.pc + 1))) = 0xd)
    (hb : ¬ m.i + Instruction.n (Instruction.new (m.memory m.pc) (m.memory (m.pc + 1))) ≤ 4096) :
    m.run_cycle r = none := by
  simp [Machine.run_cycle, Machine.exec, hpc, hk, hb]

theorem run_cycle_none_key (m : Machine) (r : Nat) (hpc : m.pc + 1 < 4096)
    (hk : Instruction.kind (Instruction.new (m.memory m.pc) (m.memory (m.pc + 1))) = 0xe)
    (hb : ¬ m.registers (Instruction.x (Instruction.new (m.memory m.pc) (m.memory (m.pc + 1)))) < 16) :
    m.run_cycle r = none := by
  simp [Machine.run_cycle, Machine.exec, hpc, hk, hb]

theorem run_cycle_none_bcd (m : Machine) (r : Nat) (hpc : m.pc + 1 < 4096)
    (hk : Instruction.kind (Instruction.new (m.memory m.pc) (m.memory (m.pc + 1))) = 0xf)
    (hnn : Instruction.nn (Instruction.new (m.memory m.pc) (m.memory (m.pc + 1))) = 0x33)
    (hb : ¬ m.i + 2 < 4096) : m.run_cycle r = none := by
  simp [Machine.run_cycle, Machine.exec, hpc, hk, hnn, hb]

theorem run_cycle_none_dump (m : Machine) (r : Nat) (hpc : m.pc + 1 < 4096)
    (hk : Instruction.kind (Instruction.new (m.memory m.pc) (m.memory (m.pc + 1))) = 0xf)
    (hnn : Instruction.nn (Instruction.new (m.memory m.pc) (m.memory (m.pc + 1))) = 0x55 ∨
      Instruction.nn (Instruction.new (m.memory m.pc) (m.memory (m.pc + 1))) = 0x65)
    (hb : ¬ m.i + Instruction.x (Instruction.new (m.memory m.pc) (m.memory (m.pc + 1))) < 4096) :
    m.run_cycle r = none := by
  rcases hnn with hnn | hnn <;> simp [Machine.run_cycle, Machine.exec, hpc, hk, hnn, hb]

theorem run_cycle_total_iff (m : Machine) (r : Nat) :
    (m.run_cycle r).isSome = true ↔ cycleSafe m := by
  constructor
  · intro hsome
    have hpc : m.pc + 1 < 4096 := by
      by_contra h
      simp [Machine.run_cycle, h] at hsome
    refine ⟨hpc, ?_, ?_, ?_, ?_, ?_⟩
    · intro hop hst
      rw [run_cycle_none_ret m r hpc hop hst] at hsome
      simp at hsome
    · intro hk
      by_contra hb
      rw [run_cycle_none_draw m r hpc hk hb] at hsome
      simp at hsome
    · intro hk
      by_contra hb
      rw [run_cycle_none_key m r hpc hk hb] at hsome
      simp at hsome
    · intro hk hnn
      by_contra hb
      rw [run_cycle_none_bcd m r hpc hk hnn hb] at hsome
      simp at hsome
    · intro hk hnn
      by_contra hb
      rw [run_cycle_none_dump m r hpc hk hnn hb] at hsome
      simp at hsome
  · rintro ⟨hpc, hret, hdraw, hkey, hbcd, hdump⟩
    have hstep : m.run_cycle r =
        Machine.exec { m with pc := m.pc + 2 } r
          (Instruction.new (m.memory m.pc) (m.memory (m.pc + 1)))
          (Instruction.kind (Instruction.new (m.memory m.pc) (m.memory (m.pc + 1))))
          (Instruction.x (Instruction.new (m.memory m.pc) (m.memory (m.pc + 1))))
          (Instruction.y (Instruction.new (m.memory m.pc) (m.memory (m.pc + 1))))
          (Instruction.n (Instruction.new (m.memory m.pc) (m.memory (m.pc + 1))))
          (Instruction.nn (Instruction.new (m.memory m.pc) (m.memory (m.pc + 1))))
          (Instruction.nnn (Instruction.new (m.memory m.pc) (m.memory (m.pc + 1)))) := by
      rw [Machine.run_cycle, if_pos hpc]
    have hklt : Instruction.kind (Instruction.new (m.memory m.pc) (m.memory (m.pc + 1))) < 16 := by
      rw [Instruction.kind_eq]; omega
    obtain ⟨c, hc16, hkc⟩ :
        ∃ c, c < 16 ∧ Instruction.kind (Instruction.new (m.memory m.pc) (m.memory (m.pc + 1))) = c :=
      ⟨_, hklt, rfl⟩
    rw [hstep, hkc]
    interval_cases c
    case «0» => exact exec_isSome_k0 _ _ _ _ _ _ _ _ hret
    case «8» => exact exec_isSome_k8 _ _ _ _ _ _ _ _
    case «13» => exact exec_isSome_k13 _ _ _ _ _ _ _ _ (hdraw hkc)
    case «14» => exact exec_isSome_k14 _ _ _ _ _ _ _ _ (hkey hkc)
    case «15» => exact exec_isSome_k15 _ _ _ _ _ _ _ _ (hbcd hkc) (hdump hkc)
    all_goals simp [Machine.exec]


/-! ## C4: call-stack depth -/

/-- Machine loaded with the single instruction 2200 at 0x200: an endless
subroutine call to 0x200 itself. -/
def callLoopState : Machine :=
  { Machine.new with memory := fun a => if a = 0x200 then 0x22 else 0 }

/-- C4 refutation: the stack is an unbounded `Vec` with no depth check, so 17
calls from the initial state leave 17 return addresses on it — more than the
claimed maximum depth of 16.  The spec (and the source's own TODO asking for a
`[u16; 16]` stack) describe the intended bound; the code does not enforce it. -/
theorem call_stack_overflow :
    ((runN (fun _ => 0) 17 callLoopState).map fun mm => mm.stack.length) = some 17 ∧
      ¬ (17 : Nat) ≤ 16 := by
  constructor
  · rfl
  · decide

/-! ## C9: clear-screen plus jump-to-self runs forever with a blank display -/

/-- Machine after loading the two-instruction program 00E0, 1200. -/
def clearJumpState : Machine :=
  (Machine.new.load_rom [0x00, 0xe0, 0x12, 0x00]).1

/-- The same machine between the clear and the jump (pc advanced to 0x202). -/
def clearJumpState2 : Machine :=
  { clearJumpState with pc := 0x202 }

theorem clearJump_step1 (r : Nat) : clearJumpState.run_cycle r = some clearJumpState2 := rfl

theorem clearJump_step2 (r : Nat) : clearJumpState2.run_cycle r = some clearJumpState := rfl

theorem clearJump_runN (rs : Nat → Nat) (k : Nat) :
    runN rs k clearJumpState = some (if k % 2 = 0 then clearJumpState else clearJumpState2) := by
  induction k with
  | zero => rfl
  | succ k ih =>
    rw [runN, ih]
    by_cases hk : k % 2 = 0
    · have hk1 : ¬ (k + 1) % 2 = 0 := by omega
      simp [hk, hk1, clearJump_step1]
    · have hk1 : (k + 1) % 2 = 0 := by omega
      simp [hk, hk1, clearJump_step2]

/-- C9: after loading the program 00E0 (clear) then 1200 (jump to 0x200),
every number of cycles succeeds, leaves the display grid all zeros, and keeps
`pc` inside the run loop's bound `MEMORY_SIZE - 1`, so the engine never stops
on its own — for any stream of random bytes. -/
theorem clear_jump_forever (rs : Nat → Nat) (k : Nat) :
    ∃ mm, runN rs k clearJumpState = some mm ∧
      (∀ a b, mm.grid a b = 0) ∧ mm.pc < 4095 := by
  refine ⟨if k % 2 = 0 then clearJumpState else clearJumpState2, clearJump_runN rs k, ?_, ?_⟩
  · intro a b
    by_cases hk : k % 2 = 0 <;> simp [hk] <;> rfl
  · by_cases hk : k % 2 = 0 <;> simp [hk] <;> decide

theorem upd2_same (g : Grid) (p q v : Nat) : upd2 g p q v p q = v := by
  simp [upd2]

theorem upd2_row_other (g : Grid) (p q v a b : Nat) (h : b ≠ q) :
    upd2 g p q v a b = g a b := by
  simp [upd2, h]

theorem upd2_col_other (g : Grid) (p q v a b : Nat) (h : a ≠ p) :
    upd2 g p q v a b = g a b := by
  simp [upd2, h]

theorem flipVal_other (v : Nat) (h1 : v ≠ 1) (h0 : v ≠ 0) : flipVal v = v := by
  simp [flipVal, h1, h0]

theorem flipVal_flipVal (v : Nat) : flipVal (flipVal v) = v := by
  by_cases h1 : v = 1
  · subst h1; rfl
  by_cases h0 : v = 0
  · subst h0; rfl
  · rw [flipVal_other v h1 h0, flipVal_other v h1 h0]

theorem flipVal_eq_one_iff (v : Nat) : flipVal v = 1 ↔ v = 0 := by
  by_cases h1 : v = 1
  · subst h1; simp [flipVal]
  by_cases h0 : v = 0
  · subst h0; simp [flipVal]
  · rw [flipVal_other v h1 h0]
    omega

theorem rowHit_ge8 (bits x offX a : Nat) (h : 8 ≤ offX) : ¬ rowHit bits x offX a := by
  rintro ⟨j, hj0, hj8, hj64, rfl, hbit⟩
  omega

theorem rowHit_clipped (bits x offX a : Nat) (h : ¬ x + offX < 64) :
    ¬ rowHit bits x offX a := by
  rintro ⟨j, hj0, hj8, hj64, rfl, hbit⟩
  omega

theorem rowColl_ge8 (bits x offX : Nat) (g : Grid) (ny : Nat) (h : 8 ≤ offX) :
    ¬ rowColl bits x offX g ny := by
  rintro ⟨j, hj0, hj8, hj64, hbit, hg⟩
  omega

theorem rowColl_clipped (bits x offX : Nat) (g : Grid) (ny : Nat) (h : ¬ x + offX < 64) :
    ¬ rowColl bits x offX g ny := by
  rintro ⟨j, hj0, hj8, hj64, hbit, hg⟩
  omega

theorem rowHit_succ_not_self (bits x offX : Nat) : ¬ rowHit bits x (offX + 1) (x + offX) := by
  rintro ⟨j, hj0, hj8, hj64, heq, hbit⟩
  omega

theorem rowHit_succ_iff_of_ne (bits x offX a : Nat) (ha : a ≠ x + offX) :
    rowHit bits x (offX + 1) a ↔ rowHit bits x offX a := by
  constructor
  · rintro ⟨j, hj0, hj8, hj64, rfl, hbit⟩
    exact ⟨j, by omega, hj8, hj64, rfl, hbit⟩
  · rintro ⟨j, hj0, hj8, hj64, rfl, hbit⟩
    refine ⟨j, ?_, hj8, hj64, rfl, hbit⟩
    rcases Nat.eq_or_lt_of_le hj0 with rfl | h
    · exact absurd rfl ha
    · omega

open Classical in
theorem flipRowGo_spec (bits x ny : Nat) :
    ∀ fuel offX (g : Grid) (flag : Nat), 8 ≤ offX + fuel →
      (∀ a b, (flipRowGo bits x ny offX g flag).1 a b =
        if b = ny ∧ rowHit bits x offX a then flipVal (g a b) else g a b) ∧
      ((flipRowGo bits x ny offX g flag).2 =
        if rowColl bits x offX g ny then 1 else flag) := by
  intro fuel
  induction fuel with
  | zero =>
    intro offX g flag h8
    have hlt : ¬ offX < 8 := by omega
    rw [flipRowGo, if_neg hlt]
    refine ⟨fun a b => ?_, ?_⟩
    · rw [if_neg fun hc => rowHit_ge8 bits x offX a (by omega) hc.2]
    · rw [if_neg (rowColl_ge8 bits x offX g ny (by omega))]
  | succ fuel ih =>
    intro offX g flag h8
    by_cases hlt : offX < 8
    case neg =>
      rw [flipRowGo, if_neg hlt]
      refine ⟨fun a b => ?_, ?_⟩
      · rw [if_neg fun hc => rowHit_ge8 bits x offX a (by omega) hc.2]
      · rw [if_neg (rowColl_ge8 bits x offX g ny (by omega))]
    case pos =>
      rw [flipRowGo, if_pos hlt]
      by_cases h64 : x + offX < 64
      case neg =>
        rw [if_neg h64]
        refine ⟨fun a b => ?_, ?_⟩
        · rw [if_neg fun hc => rowHit_clipped bits x offX a h64 hc.2]
        · rw [if_neg (rowColl_clipped bits x offX g ny h64)]
      case pos =>
        rw [if_pos h64]
        by_cases hc1 : g (x + offX) ny = 1 ∧ (bits >>> (7 - offX)) &&& 1 = 1
        · rw [if_pos hc1]
          obtain ⟨IH1, IH2⟩ := ih (offX + 1) (upd2 g (x + offX) ny 0) 1 (by omega)
          refine ⟨fun a b => ?_, ?_⟩
          · rw [IH1 a b]
            by_cases hb : b = ny
            · rw [hb]
              by_cases ha : a = x + offX
              · subst ha
                have hself : ny = ny ∧ rowHit bits x offX (x + offX) :=
                  ⟨rfl, offX, Nat.le_refl _, hlt, h64, rfl, hc1.2⟩
                rw [if_neg fun hc => rowHit_succ_not_self bits x offX hc.2, if_pos hself,
                  upd2_same, hc1.1]
                rfl
              · rw [upd2_col_other g (x + offX) ny 0 a ny ha,
                  if_congr (and_congr_right fun _ => rowHit_succ_iff_of_ne bits x offX a ha)
                    rfl rfl]
            · rw [upd2_row_other g (x + offX) ny 0 a b hb,
                if_neg fun hc => hb hc.1, if_neg fun hc => hb hc.1]
          · rw [IH2]
            have hcoll : rowColl bits x offX g ny :=
              ⟨offX, Nat.le_refl _, hlt, h64, hc1.2, hc1.1⟩
            rw [if_pos hcoll, ite_self]
        · rw [if_neg hc1]
          by_cases hc2 : g (x + offX) ny = 0 ∧ (bits >>> (7 - offX)) &&& 1 = 1
          · rw [if_pos hc2]
            obtain ⟨IH1, IH2⟩ := ih (offX + 1) (upd2 g (x + offX) ny 1) flag (by omega)
            refine ⟨fun a b => ?_, ?_⟩
            · rw [IH1 a b]
              by_cases hb : b = ny
              · rw [hb]
                by_cases ha : a = x + offX
                · subst ha
                  have hself : ny = ny ∧ rowHit bits x offX (x + offX) :=
                    ⟨rfl, offX, Nat.le_refl _, hlt, h64, rfl, hc2.2⟩
                  rw [if_neg fun hc => rowHit_succ_not_self bits x offX hc.2, if_pos hself,
                    upd2_same, hc2.1]
                  rfl
                · rw [upd2_col_other g (x + offX) ny 1 a ny ha,
                    if_congr (and_congr_right fun _ => rowHit_succ_iff_of_ne bits x offX a ha)
                      rfl rfl]
              · rw [upd2_row_other g (x + offX) ny 1 a b hb,
                  if_neg fun hc => hb hc.1, if_neg fun hc => hb hc.1]
            · rw [IH2]
              have hiff : rowColl bits x (offX + 1) (upd2 g (x + offX) ny 1) ny ↔
                  rowColl bits x offX g ny := by
                constructor
                · rintro ⟨j, hj0, hj8, hj64, hbit, hg⟩
                  rw [upd2_col_other g (x + offX) ny 1 (x + j) ny (by omega)] at hg
                  exact ⟨j, by omega, hj8, hj64, hbit, hg⟩
                · rintro ⟨j, hj0, hj8, hj64, hbit, hg⟩
                  have hj : offX + 1 ≤ j := by
                    rcases Nat.eq_or_lt_of_le hj0 with rfl | h
                    · rw [hc2.1] at hg
                      omega
                    · omega
                  refine ⟨j, hj, hj8, hj64, hbit, ?_⟩
                  rw [upd2_col_other g (x + offX) ny 1 (x + j) ny (by omega)]
                  exact hg
              rw [if_congr hiff rfl rfl]
          · rw [if_neg hc2]
            obtain ⟨IH1, IH2⟩ := ih (offX + 1) g flag (by omega)
            refine ⟨fun a b => ?_, ?_⟩
            · rw [IH1 a b]
              by_cases hb : b = ny
              · rw [hb]
                by_cases ha : a = x + offX
                · subst ha
                  rw [if_neg fun hc => rowHit_succ_not_self bits x offX hc.2]
                  by_cases hbit : (bits >>> (7 - offX)) &&& 1 = 1
                  · have hself : ny = ny ∧ rowHit bits x offX (x + offX) :=
                      ⟨rfl, offX, Nat.le_refl _, hlt, h64, rfl, hbit⟩
                    rw [if_pos hself,
                      flipVal_other (g (x + offX) ny) (fun h => hc1 ⟨h, hbit⟩)
                        (fun h => hc2 ⟨h, hbit⟩)]
                  · have hnr : ¬ (ny = ny ∧ rowHit bits x offX (x + offX)) := by
                      rintro ⟨_, j, hj0, hj8, hj64, heq, hbitj⟩
                      have hje : j = offX := by omega
                      subst hje
                      exact hbit hbitj
                    rw [if_neg hnr]
                · rw [if_congr (and_congr_right fun _ => rowHit_succ_iff_of_ne bits x offX a ha)
                    rfl rfl]
              · rw [if_neg fun hc => hb hc.1, if_neg fun hc => hb hc.1]
            · rw [IH2]
              have hiff : rowColl bits x (offX + 1) g ny ↔ rowColl bits x offX g ny := by
                constructor
                · rintro ⟨j, hj0, hj8, hj64, hbit, hg⟩
                  exact ⟨j, by omega, hj8, hj64, hbit, hg⟩
                · rintro ⟨j, hj0, hj8, hj64, hbit, hg⟩
                  have hj : offX + 1 ≤ j := by
                    rcases Nat.eq_or_lt_of_le hj0 with rfl | h
                    · exact absurd ⟨hg, hbit⟩ hc1
                    · omega
                  exact ⟨j, hj, hj8, hj64, hbit, hg⟩
              rw [if_congr hiff rfl rfl]

theorem rowColl_congr (bits x offX : Nat) (g g2 : Grid) (ny : Nat)
    (h : ∀ a, g2 a ny = g a ny) : rowColl bits x offX g2 ny ↔ rowColl bits x offX g ny := by
  constructor <;> rintro ⟨j, hj0, hj8, hj64, hbit, hg⟩ <;>
    refine ⟨j, hj0, hj8, hj64, hbit, ?_⟩
  · rw [← h (x + j)]
    exact hg
  · rw [h (x + j)]
    exact hg

open Classical in
theorem flipGo_spec (x y : Nat) :
    ∀ (rows : List Nat) (offY : Nat) (g : Grid) (flag : Nat), y + offY ≤ 32 →
      (∀ a b, (flipGo x y rows offY g flag).1 a b =
        if ∃ i, i < rows.length ∧ y + offY + i < 32 ∧ b = y + offY + i ∧
            rowHit (rows.getD i 0) x 0 a
        then flipVal (g a b) else g a b) ∧
      ((flipGo x y rows offY g flag).2 =
        if ∃ i, i < rows.length ∧ y + offY + i < 32 ∧
            rowColl (rows.getD i 0) x 0 g (y + offY + i)
        then 1 else flag) := by
  intro rows
  induction rows with
  | nil =>
    intro offY g flag h32
    rw [flipGo]
    refine ⟨fun a b => ?_, ?_⟩
    · rw [if_neg ?_]
      rintro ⟨i, hi, -⟩
      simp at hi
    · rw [if_neg ?_]
      rintro ⟨i, hi, -⟩
      simp at hi
  | cons bits rest ih =>
    intro offY g flag h32
    rw [flipGo]
    by_cases h2 : y + offY = 32
    · rw [if_pos h2]
      refine ⟨fun a b => ?_, ?_⟩
      · rw [if_neg ?_]
        rintro ⟨i, hi, hi32, -⟩
        omega
      · rw [if_neg ?_]
        rintro ⟨i, hi, hi32, -⟩
        omega
    · rw [if_neg h2]
      have h32' : y + offY < 32 := by omega
      obtain ⟨R1, R2⟩ := flipRowGo_spec bits x (y + offY) 8 0 g flag (by omega)
      obtain ⟨IH1, IH2⟩ := ih (offY + 1) (flipRowGo bits x (y + offY) 0 g flag).1
        (flipRowGo bits x (y + offY) 0 g flag).2 (by omega)
      have hg1 : ∀ ny2, ny2 ≠ y + offY →
          ∀ a, (flipRowGo bits x (y + offY) 0 g flag).1 a ny2 = g a ny2 := by
        intro ny2 hne a
        rw [R1 a ny2, if_neg fun hc => hne hc.1]
      refine ⟨fun a b => ?_, ?_⟩
      · rw [IH1 a b]
        by_cases hrest : ∃ i, i < rest.length ∧ y + (offY + 1) + i < 32 ∧
            b = y + (offY + 1) + i ∧ rowHit (rest.getD i 0) x 0 a
        · rw [if_pos hrest]
          obtain ⟨i, hi, hi32, hb, hhit⟩ := hrest
          have hbne : b ≠ y + offY := by omega
          rw [R1 a b, if_neg fun hc => hbne hc.1, if_pos ?_]
          refine ⟨i + 1, by simpa using hi, by omega, by omega, ?_⟩
          simpa using hhit
        · rw [if_neg hrest, R1 a b]
          by_cases hrow : b = y + offY ∧ rowHit bits x 0 a
          · rw [if_pos hrow, if_pos ?_]
            refine ⟨0, by simp, by omega, by omega, ?_⟩
            simpa using hrow.2
          · rw [if_neg hrow, if_neg ?_]
            rintro ⟨i, hi, hi32, hb, hhit⟩
            cases i with
            | zero =>
              refine hrow ⟨by omega, ?_⟩
              simpa using hhit
            | succ i2 =>
              refine hrest ⟨i2, by simpa using hi, by omega, by omega, ?_⟩
              simpa using hhit
      · rw [IH2, R2]
        by_cases hrest : ∃ i, i < rest.length ∧ y + (offY + 1) + i < 32 ∧
            rowColl (rest.getD i 0) x 0 (flipRowGo bits x (y + offY) 0 g flag).1
              (y + (offY + 1) + i)
        · rw [if_pos hrest, if_pos ?_]
          obtain ⟨i, hi, hi32, hcoll⟩ := hrest
          rw [rowColl_congr _ _ _ g _ _ (hg1 _ (by omega))] at hcoll
          refine ⟨i + 1, by simpa using hi, by omega, ?_⟩
          have heq : y + offY + (i + 1) = y + (offY + 1) + i := by omega
          rw [heq]
          simpa using hcoll
        · rw [if_neg hrest]
          by_cases hrow : rowColl bits x 0 g (y + offY)
          · rw [if_pos hrow, if_pos ?_]
            refine ⟨0, by simp, by omega, ?_⟩
            have heq : y + offY + 0 = y + offY := by omega
            rw [heq]
            simpa using hrow
          · rw [if_neg hrow, if_neg ?_]
            rintro ⟨i, hi, hi32, hcoll⟩
            cases i with
            | zero =>
              refine hrow ?_
              have heq : y + offY + 0 = y + offY := by omega
              rw [heq] at hcoll
              simpa using hcoll
            | succ i2 =>
              refine hrest ⟨i2, by simpa using hi, by omega, ?_⟩
              rw [rowColl_congr _ _ _ g _ _ (hg1 _ (by omega))]
              have heq : y + (offY + 1) + i2 = y + offY + (i2 + 1) := by omega
              rw [heq]
              simpa using hcoll

open Classical in
theorem flip_spec (g : Grid) (x y : Nat) (data : List Nat) (hy : y < 32) :
    (∀ a b, (Video.flip g x y data.length data).1 a b =
      if spriteHit x y data a b then flipVal (g a b) else g a b) ∧
    ((Video.flip g x y data.length data).2 =
      if ∃ a b, spriteHit x y data a b ∧ g a b = 1 then 1 else 0) := by
  obtain ⟨H1, H2⟩ := flipGo_spec x y (data.take data.length) 0 g 0 (by omega)
  rw [List.take_length] at H1 H2
  unfold Video.flip
  rw [List.take_length]
  constructor
  · intro a b
    rw [H1 a b]
    refine if_congr ?_ rfl rfl
    unfold spriteHit
    constructor <;> rintro ⟨i, hi, hi32, hb, hhit⟩ <;>
      exact ⟨i, hi, by omega, by omega, hhit⟩
  · rw [H2]
    refine if_congr ?_ rfl rfl
    constructor
    · rintro ⟨i, hi, hi32, j, hj0, hj8, hj64, hbit, hg⟩
      exact ⟨x + j, y + 0 + i, ⟨i, hi, by omega, by omega, j, hj0, hj8, hj64, rfl, hbit⟩, hg⟩
    · rintro ⟨a, b, ⟨i, hi, hi32, hb, j, hj0, hj8, hj64, ha, hbit⟩, hg⟩
      subst ha
      subst hb
      refine ⟨i, hi, by omega, j, hj0, hj8, hj64, hbit, ?_⟩
      exact hg

/-- Grid with every pixel set. -/
def allOnGrid : Grid := fun _ _ => 1

/-- Grid with every pixel clear. -/
def zeroGrid : Grid := fun _ _ => 0

/-- C7 counterexample: drawing the nonzero sprite [0x80] at (0,0) twice on an
all-set grid erases the pixel on the first draw and re-sets it on the second,
so the second draw reports no collision (flag 0, not 1). -/
theorem draw_twice_counterexample :
    (128 : Nat) ≠ 0 ∧
      (Video.flip (Video.flip allOnGrid 0 0 1 [128]).1 0 0 1 [128]).2 = 0 := by
  refine ⟨by decide, ?_⟩
  show (Video.flip (Video.flip allOnGrid 0 0 (List.length [128]) [128]).1 0 0
    (List.length [128]) [128]).2 = 0
  obtain ⟨F1, F2⟩ := flip_spec allOnGrid 0 0 [128] (by decide)
  obtain ⟨S1, S2⟩ :=
    flip_spec (Video.flip allOnGrid 0 0 (List.length [128]) [128]).1 0 0 [128] (by decide)
  rw [S2, if_neg ?_]
  rintro ⟨a, b, hh, hv⟩
  rw [F1 a b, if_pos hh] at hv
  have h0 := (flipVal_eq_one_iff (allOnGrid a b)).mp hv
  simp [allOnGrid] at h0

open Classical in
/-- C7 (amended): drawing the same sprite twice at the same in-range position
always returns the grid to its pre-draw state, and the second draw reports a
collision precisely when some set sprite bit lands inside the grid on a pixel
that was clear before the first draw (so sprites whose set bits are all
clipped, or all land on already-set pixels, report no collision). -/
theorem draw_twice_amended (g : Grid) (x y : Nat) (data : List Nat)
    (hx : x < 64) (hy : y < 32) :
    (∀ a b, (Video.flip (Video.flip g x y data.length data).1 x y data.length data).1 a b
      = g a b) ∧
    ((Video.flip (Video.flip g x y data.length data).1 x y data.length data).2 = 1 ↔
      ∃ a b, spriteHit x y data a b ∧ g a b = 0) := by
  obtain ⟨F1, F2⟩ := flip_spec g x y data hy
  obtain ⟨S1, S2⟩ := flip_spec (Video.flip g x y data.length data).1 x y data hy
  constructor
  · intro a b
    rw [S1 a b, F1 a b]
    by_cases h : spriteHit x y data a b
    · rw [if_pos h, if_pos h, flipVal_flipVal]
    · rw [if_neg h, if_neg h]
  · rw [S2]
    have hiff : (∃ a b, spriteHit x y data a b ∧
        (Video.flip g x y data.length data).1 a b = 1) ↔
        (∃ a b, spriteHit x y data a b ∧ g a b = 0) := by
      constructor <;> rintro ⟨a, b, hh, hv⟩ <;> refine ⟨a, b, hh, ?_⟩
      · rw [F1 a b, if_pos hh] at hv
        exact (flipVal_eq_one_iff (g a b)).mp hv
      · rw [F1 a b, if_pos hh, flipVal_eq_one_iff]
        exact hv
    rw [if_congr hiff rfl rfl]
    by_cases h : ∃ a b, spriteHit x y data a b ∧ g a b = 0
    · rw [if_pos h]
      exact ⟨fun _ => h, fun _ => rfl⟩
    · rw [if_neg h]
      exact ⟨fun h0 => absurd h0 (by decide), fun hh => absurd hh h⟩

/-- Witness for C7: the sprite [0x80] drawn twice at (0,0) on the all-clear
grid restores the grid (checked at the pixel (0,0)) and the second draw
collides. -/
theorem draw_twice_witness :
    (0 : Nat) < 64 ∧ (0 : Nat) < 32 ∧
      (Video.flip (Video.flip zeroGrid 0 0 (List.length [128]) [128]).1 0 0
        (List.length [128]) [128]).1 0 0 = zeroGrid 0 0 ∧
      (Video.flip (Video.flip zeroGrid 0 0 (List.length [128]) [128]).1 0 0
        (List.length [128]) [128]).2 = 1 :=
  ⟨by decide, by decide,
    (draw_twice_amended zeroGrid 0 0 [128] (by decide) (by decide)).1 0 0,
    (draw_twice_amended zeroGrid 0 0 [128] (by decide) (by decide)).2.mpr
      ⟨0, 0, ⟨0, by decide, by decide, by decide, 0, by decide, by decide, by decide,
        by decide, by decide⟩, rfl⟩⟩
